import Mathlib

/- Verification of the wavetrace setup tool against its specification.
   Shallow embedding of wt_util.py and wt_setup.py: net-string helpers,
   the debug-instance tree with its width and position layout passes,
   module resolution, and the line-driven source patcher. -/

set_option autoImplicit false

/- ### Character-list utilities mirroring the Python string operations -/

/-- Python str.split(sep) for a single-character separator. -/
def splitOnChar (sep : Char) : List Char → List (List Char)
  | [] => [[]]
  | c :: rest =>
    if c = sep then
      [] :: splitOnChar sep rest
    else
      match splitOnChar sep rest with
      | [] => [[c]]
      | x :: xs => (c :: x) :: xs

/-- First-occurrence split: findOcc l pat = some (a, b) means l = a ++ pat ++ b
    with a shortest.  This is the scan performed by Python str.replace. -/
def findOcc (l pat : List Char) : Option (List Char × List Char) :=
  if pat.isPrefixOf l then some ([], l.drop pat.length)
  else
    match l with
    | [] => none
    | c :: rest => (findOcc rest pat).map (fun p => (c :: p.1, p.2))

/-- The left-to-right, non-overlapping scan of Python str.replace(old, new).
    The skip argument drops pattern characters already consumed by a match. -/
def replaceScan (pat rep : List Char) : Nat → List Char → List Char
  | _, [] => []
  | skip + 1, _ :: rest => replaceScan pat rep skip rest
  | 0, c :: rest =>
    if pat ≠ [] ∧ pat.isPrefixOf (c :: rest) then
      rep ++ replaceScan pat rep (pat.length - 1) rest
    else
      c :: replaceScan pat rep 0 rest

/-- Python line.replace(old, new): replace every occurrence.  (The tool only
    ever replaces nonempty module-type identifiers.) -/
def replaceAllCh (pat rep l : List Char) : List Char := replaceScan pat rep 0 l

/-- Python line.replace(old, new, 1): replace only the first occurrence. -/
def replaceFirstCh (pat rep l : List Char) : List Char :=
  match findOcc l pat with
  | none => l
  | some p => p.1 ++ rep ++ p.2

/-- Python sep.join(strings). -/
def joinSep (sep : String) : List String → String
  | [] => ""
  | [x] => x
  | x :: y :: rest => x ++ sep ++ joinSep sep (y :: rest)

/-- Last element of a nonempty list of segments, [] for an empty list. -/
def lastSegAux : List (List Char) → List Char
  | [] => []
  | [x] => x
  | _ :: y :: rest => lastSegAux (y :: rest)

/-- Python path.split('.')[-1]. -/
def lastSeg (l : List Char) : List Char := lastSegAux (splitOnChar '.' l)

/- ### wt_util.py -/

/-- Scan to the first closing bracket, mirroring the lazy regex group in
    wt_util.net_range; a newline aborts the match like '.' does in re. -/
def upToClose : List Char → Option (List Char)
  | [] => none
  | c :: rest =>
    if c = ']' then some []
    else if c = '\n' then none
    else (upToClose rest).map (fun r => c :: r)

/-- Contents of the first bracket group matched by re.search in net_range:
    at each open bracket the lazy group runs to the nearest close bracket,
    and an unclosed bracket makes the search continue further right. -/
def extractBracket : List Char → Option (List Char)
  | [] => none
  | c :: rest =>
    if c = '[' then
      match upToClose rest with
      | some r => some r
      | none => extractBracket rest
    else extractBracket rest

def parseDigits (l : List Char) : Option Nat :=
  if l ≠ [] ∧ l.all (fun c => c.isDigit) then
    some (l.foldl (fun a c => a * 10 + (c.toNat - 48)) 0)
  else none

/-- Python int(s): optional surrounding whitespace, optional sign, decimal
    digits; none models the ValueError raised on anything else. -/
def parseInt (l : List Char) : Option Int :=
  match ((l.dropWhile (fun c => c.isWhitespace)).reverse.dropWhile (fun c => c.isWhitespace)).reverse with
  | '-' :: rest => (parseDigits rest).map (fun n => -(n : Int))
  | '+' :: rest => (parseDigits rest).map (fun n => (n : Int))
  | t => (parseDigits t).map (fun n => (n : Int))

/-- wt_util.net_name: the part of a net string before any bracket. -/
def net_name (s : String) : String :=
  String.mk ((splitOnChar '[' s.toList).headD [])

/-- wt_util.net_range: (high, low) of the first bracketed range, (0, 0) when
    there is no bracket; none models the uncaught ValueError raised by int()
    on non-numeric range contents. -/
def net_range (s : String) : Option (Int × Int) :=
  match extractBracket s.toList with
  | none => some (0, 0)
  | some contents =>
    match splitOnChar ':' contents with
    | [x] => (parseInt x).map (fun n => (n, n))
    | x :: y :: _ => (parseInt x).bind (fun hi => (parseInt y).map (fun lo => (hi, lo)))
    | [] => none

/-- wt_util.net_width: abs(hi - lo) + 1 over the extracted range. -/
def net_width (s : String) : Option Nat :=
  (net_range s).map (fun p => (p.1 - p.2).natAbs + 1)

/- ### wt_setup.py data model -/

/-- wt_setup.DbgNet: a single net being debugged.  vector_pos is none until
    set_vector_pos runs. -/
structure DbgNet where
  path : String
  name : String
  bit_width : Nat
  has_range : Bool
  vector_pos : Option Nat
deriving DecidableEq

mutual
/-- wt_setup.DbgInstance: a verilog instance being debugged.  port_width is
    none until set_port_widths runs. -/
inductive DbgInstance where
  | mk (name : String) (module_type : String) (inst_id : Nat) (is_top : Bool)
      (port_width : Option Nat) (local_nets : List DbgNet) (sub_instances : DbgInstList)
/-- The sub_instances list, as a mutual inductive so that all traversals are
    plain structural recursions. -/
inductive DbgInstList where
  | nil
  | cons (head : DbgInstance) (tail : DbgInstList)
end

def DbgInstance.name : DbgInstance → String
  | .mk n _ _ _ _ _ _ => n

def DbgInstance.module_type : DbgInstance → String
  | .mk _ mt _ _ _ _ _ => mt

def DbgInstance.inst_id : DbgInstance → Nat
  | .mk _ _ i _ _ _ _ => i

def DbgInstance.is_top : DbgInstance → Bool
  | .mk _ _ _ t _ _ _ => t

def DbgInstance.port_width : DbgInstance → Option Nat
  | .mk _ _ _ _ w _ _ => w

def DbgInstance.local_nets : DbgInstance → List DbgNet
  | .mk _ _ _ _ _ nets _ => nets

def DbgInstance.sub_instances : DbgInstance → DbgInstList
  | .mk _ _ _ _ _ _ subs => subs

def DbgInstList.toList : DbgInstList → List DbgInstance
  | .nil => []
  | .cons i is => i :: is.toList

mutual
/-- All nets of the subtree in depth-first order, local nets first, exactly
    the order of DbgInstance.write_signals_in_order. -/
def DbgInstance.allNets : DbgInstance → List DbgNet
  | .mk _ _ _ _ _ nets subs => nets ++ DbgInstList.allNetsList subs
def DbgInstList.allNetsList : DbgInstList → List DbgNet
  | .nil => []
  | .cons i is => DbgInstance.allNets i ++ DbgInstList.allNetsList is
end

mutual
/-- All instances of the subtree in depth-first order, the node first. -/
def DbgInstance.allInstances : DbgInstance → List DbgInstance
  | .mk nm mt id top pw nets subs =>
    DbgInstance.mk nm mt id top pw nets subs :: DbgInstList.allInstancesList subs
def DbgInstList.allInstancesList : DbgInstList → List DbgInstance
  | .nil => []
  | .cons i is => DbgInstance.allInstances i ++ DbgInstList.allInstancesList is
end

mutual
/-- DbgInstance.set_port_widths: store at each node the sum of its local
    nets' widths plus its children's computed widths, and return it. -/
def DbgInstance.set_port_widths : DbgInstance → DbgInstance × Nat
  | .mk nm mt id top _ nets subs =>
    let localSum := (nets.map (fun n => n.bit_width)).sum
    let r := DbgInstList.set_port_widths_list subs
    (DbgInstance.mk nm mt id top (some (localSum + r.2)) nets r.1, localSum + r.2)
def DbgInstList.set_port_widths_list : DbgInstList → DbgInstList × Nat
  | .nil => (.nil, 0)
  | .cons i is =>
    let ri := DbgInstance.set_port_widths i
    let rs := DbgInstList.set_port_widths_list is
    (.cons ri.1 rs.1, ri.2 + rs.2)
end

/-- The local-net loop of DbgInstance.set_vector_pos: the running position
    advances by each net's width and the net's MSB position is the new
    position minus one. -/
def setNetsPos : List DbgNet → Nat → List DbgNet × Nat
  | [], pos => ([], pos)
  | n :: rest, pos =>
    let r := setNetsPos rest (pos + n.bit_width)
    ({ n with vector_pos := some (pos + n.bit_width - 1) } :: r.1, r.2)

mutual
/-- DbgInstance.set_vector_pos: assign every net's position within the
    global debug vector, local nets first, then the sub-instances. -/
def DbgInstance.set_vector_pos : DbgInstance → Nat → DbgInstance × Nat
  | .mk nm mt id top pw nets subs, offset =>
    let rn := setNetsPos nets offset
    let rs := DbgInstList.set_vector_pos_list subs rn.2
    (DbgInstance.mk nm mt id top pw rn.1 rs.1, rs.2)
def DbgInstList.set_vector_pos_list : DbgInstList → Nat → DbgInstList × Nat
  | .nil, pos => (.nil, pos)
  | .cons i is, pos =>
    let ri := DbgInstance.set_vector_pos i pos
    let rs := DbgInstList.set_vector_pos_list is ri.2
    (.cons ri.1 rs.1, rs.2)
end

/-- DbgInstance._get_assign_string's signal list: sub-instance debug wires in
    reverse child order, then local nets in reverse declaration order. -/
def get_assign_sigs (i : DbgInstance) : List String :=
  ((i.sub_instances.toList.reverse).map (fun s => s.name ++ "_wt_debug"))
    ++ ((i.local_nets.reverse).map (fun n => n.name))

/-- DbgInstance._get_assign_string: the signals joined by a comma, newline
    and 21 spaces of indentation. -/
def get_assign_string (i : DbgInstance) : String :=
  joinSep (",\n                     ") (get_assign_sigs i)

/- ### Hierarchy building: the terminal-net step and module resolution -/

/-- DbgNet.__init__: the name is the last dotted segment of the path and the
    width comes from net_width; none models the int() exception escaping. -/
def mkDbgNet (path : String) (has_range : Bool) : Option DbgNet :=
  (net_width (String.mk (lastSeg path.toList))).map
    (fun w => ⟨path, String.mk (lastSeg path.toList), w, has_range, none⟩)

/-- The terminal-segment handling of WTSetup._build_data_structure
    (wt_setup.py lines 562-579).  net_type is the Vparse.check_net_type
    result for the owning instance's file: "none", "single" or "vector". -/
def addTerminalNet (net_type : String) (path : String) : Except String DbgNet :=
  if net_type = "none" then
    .error ("Unable to locate net '" ++ net_name (String.mk (lastSeg path.toList)) ++ "'")
  else
    match mkDbgNet path (net_type == "vector") with
    | none => .error "uncaught ValueError: invalid literal for int()"
    | some net =>
      if ¬ ('[' ∈ path.toList) ∧ net.has_range = true then
        .error ("Unable to extract bit range from net name '" ++ path
          ++ "', please append a bit range to all multi-bit nets")
      else .ok net

/-- The files defining module_type among the registered (name, file) module
    entries, in registration order, as collected by WTSetup._module_exists. -/
def moduleMatches (src_modules : List (String × String)) (module_type : String) : List String :=
  (src_modules.filter (fun m => m.1 == module_type)).map (fun m => m.2)

/-- The AmbiguousModule message of WTSetup._module_exists, joining every
    offending file. -/
def ambiguousModuleMsg (module_type : String) (files : List String) : String :=
  "Found multiple definitions for module '" ++ module_type ++ "' in these files: "
    ++ joinSep (", ") files
    ++ ". You can exclude source files or directories with the 'rm_sources()' function)"

/-- WTSetup._module_exists: ok false on zero matches, the fatal
    AmbiguousModule error on several, ok true on exactly one. -/
def module_exists (src_modules : List (String × String)) (module_type : String) : Except String Bool :=
  if (moduleMatches src_modules module_type).length = 0 then .ok false
  else if (moduleMatches src_modules module_type).length > 1 then
    .error (ambiguousModuleMsg module_type (moduleMatches src_modules module_type))
  else .ok true

/-- WTSetup._get_fname: the file of the first module entry with this name. -/
def get_fname (src_modules : List (String × String)) (module_type : String) : Option String :=
  (src_modules.find? (fun m => m.1 == module_type)).map (fun m => m.2)

/-- The UnknownModule message produced at the call sites of _module_exists
    when it returns false. -/
def unknownModuleMsg (module_type : String) : String :=
  "Cannot find module '" ++ module_type
    ++ "'. Check that the source code has been added with the 'add_sources()' function"

/-- Module resolution as performed at the call sites of _module_exists: zero
    matches is the fatal UnknownModule error, several the AmbiguousModule
    error, one match yields the defining file via _get_fname. -/
def resolve_module (src_modules : List (String × String)) (module_type : String) : Except String String :=
  match module_exists src_modules module_type with
  | .error e => .error e
  | .ok false => .error (unknownModuleMsg module_type)
  | .ok true =>
    match get_fname src_modules module_type with
    | some f => .ok f
    | none => .error (unknownModuleMsg module_type)

/- ### The source patcher: DbgInstance.generate_hdl on one file -/

/-- Vparse.MOD_STYLE_1995. -/
def MOD_STYLE_1995 : Nat := 0

/-- Vparse.MOD_STYLE_2001. -/
def MOD_STYLE_2001 : Nat := 1

/-- The per-instance variant suffix, Python "_wt%d" % inst_id. -/
def instIdStr (inst_id : Nat) : String := "_wt" ++ toString inst_id

/-- The output path OUTPUT_DIR + fname + id_str + ext built by generate_hdl;
    fname and ext come from ntpath.splitext of the input basename. -/
def output_filename (fname ext : String) (inst_id : Nat) : String :=
  "output/" ++ fname ++ instIdStr inst_id ++ ext

/-- The declaration-location HACK of generate_hdl (wt_setup.py lines
    248-254): when the port list and the declaration point fall on the same
    line, the declaration point moves to the start of the following line. -/
def normalizeDeclLoc (port_line : Nat) (decl : Nat × Nat) : Nat × Nat :=
  if port_line = decl.1 then (decl.1 + 1, 0) else decl

/-- One entry of the zip of self.sub_instances and self.instance_locations
    used by generate_hdl (both lists are indexed by the same j).  All
    line/column pairs are 1-based as produced by pyparsing. -/
structure SubLoc where
  name : String
  module_type : String
  inst_id : Nat
  port_width : Nat
  inst_type_loc : Nat × Nat
  port_loc : Nat × Nat

/-- The state of one DbgInstance at generate_hdl time: its fields plus the
    anchors gathered by locate_items.  port_line/port_col/mod_style unpack
    self.port_location; local_net_names lists self.local_nets names in
    declaration order. -/
structure GenCfg where
  module_type : String
  inst_id : Nat
  is_top : Bool
  port_width : Nat
  module_location : Nat × Nat
  port_line : Nat
  port_col : Nat
  mod_style : Nat
  declaration_location : Nat × Nat
  endmodule_location : Nat × Nat
  subs : List SubLoc
  local_net_names : List String
  wt_instance_string : String

/-- DbgInstance._write_debug_block: splice the marked debug content into the
    line at the given column.  A Python line carries its trailing newline;
    line[col:-1] is modelled by dropLast/drop.  (Python would raise an
    IndexError on line[col] for col past the end; locator columns always lie
    within the line, and out-of-range columns here behave like a non-newline
    character.) -/
def writeDebugBlock (line : List Char) (col : Nat) (content : List Char) : List Char :=
  let add_cr := line.get? col ≠ some '\n'
  line.take col
    ++ ("\n//---WT_DEBUG---\n").toList
    ++ content
    ++ ("//---WT_DEBUG---\n").toList
    ++ (line.dropLast.drop col)
    ++ (if add_cr then ['\n'] else [])

/-- The module-header rename of generate_hdl (line 297): Python str.replace
    with no count, so every occurrence of the module type is suffixed. -/
def module_header_rename (module_type id_str : String) (line : List Char) : List Char :=
  replaceAllCh module_type.toList (module_type ++ id_str).toList line

/-- The child instance-type rename of generate_hdl (line 268): Python
    str.replace with count 1, so only the first occurrence is suffixed. -/
def inst_type_rename (module_type id_str : String) (line : List Char) : List Char :=
  replaceFirstCh module_type.toList (module_type ++ id_str).toList line

/-- The sub-instance loop of generate_hdl (lines 258-283): scan the
    instance locations in order; a match writes output and breaks. -/
def instance_scan (line : List Char) (n : Nat) : List SubLoc → Option (List Char)
  | [] => none
  | s :: rest =>
    if n = s.inst_type_loc.1 - 1 then
      let ids := instIdStr s.inst_id
      let line2 := inst_type_rename s.module_type ids line
      if n = s.port_loc.1 - 1 then
        some (writeDebugBlock line2 (s.port_loc.2 + ids.length)
          (("    .wt_debug(" ++ s.name ++ "_wt_debug),\n").toList))
      else some line2
    else
      if n = s.port_loc.1 - 1 then
        some (writeDebugBlock line s.port_loc.2
          (("    .wt_debug(" ++ s.name ++ "_wt_debug),\n").toList))
      else instance_scan line n rest

/-- The port-list insertion content of generate_hdl (lines 305-316). -/
def port_content (cfg : GenCfg) : String :=
  if cfg.mod_style = MOD_STYLE_2001 then
    if cfg.is_top then "  input  wt_uart_rx,\n" ++ "  output wt_uart_tx,\n"
    else "  output [" ++ toString (cfg.port_width - 1) ++ ":0] wt_debug,\n"
  else
    if cfg.is_top then "  wt_uart_rx,\n" ++ "  wt_uart_tx,\n"
    else "  wt_debug,\n"

/-- The declaration-point insertion content of generate_hdl (lines
    330-344): 1995-style port redeclarations, the top-level debug vector,
    and one wire per sub-instance debug bus. -/
def decl_content (cfg : GenCfg) : String :=
  (if cfg.mod_style = MOD_STYLE_1995 then
    (if cfg.is_top then "  input  wt_uart_rx;\n" ++ "  output wt_uart_tx;\n"
     else "  output [" ++ toString (cfg.port_width - 1) ++ ":0] wt_debug;\n")
   else "")
  ++ (if cfg.is_top then "  wire [" ++ toString (cfg.port_width - 1) ++ ":0] wt_debug;\n" else "")
  ++ String.join (cfg.subs.map (fun j =>
      "  wire [" ++ toString (j.port_width - 1) ++ ":0] " ++ j.name ++ "_wt_debug;\n"))

/-- _get_assign_string's signal list for a GenCfg: sub-instance wires in
    reverse child order, then local nets in reverse declaration order. -/
def cfg_assign_sigs (cfg : GenCfg) : List String :=
  ((cfg.subs.reverse).map (fun s => s.name ++ "_wt_debug")) ++ cfg.local_net_names.reverse

/-- _get_assign_string for a GenCfg. -/
def cfg_assign_string (cfg : GenCfg) : String :=
  joinSep (",\n                     ") (cfg_assign_sigs cfg)

/-- The body of the generate_hdl line loop (lines 255-365) for one input
    line, numbered from zero; dl is the (already normalized) declaration
    location. -/
def process_line (cfg : GenCfg) (dl : Nat × Nat) (n : Nat) (line : List Char) : List Char :=
  match instance_scan line n cfg.subs with
  | some out => out
  | none =>
    if n = cfg.module_location.1 - 1 then
      let ids := if cfg.is_top then "" else instIdStr cfg.inst_id
      let line2 := module_header_rename cfg.module_type ids line
      if n = cfg.port_line - 1 then
        writeDebugBlock line2 (cfg.port_col + ids.length) (port_content cfg).toList
      else line2
    else if n = cfg.port_line - 1 then
      writeDebugBlock line cfg.port_col (port_content cfg).toList
    else if n = dl.1 - 1 then
      if (decl_content cfg).length > 0 then
        writeDebugBlock line dl.2 (decl_content cfg).toList
      else line
    else if n = cfg.endmodule_location.1 - 1 then
      writeDebugBlock line (cfg.endmodule_location.2 - 1)
        (("  assign wt_debug = \x7b" ++ cfg_assign_string cfg ++ "\x7d;\n"
          ++ (if cfg.is_top then cfg.wt_instance_string else "")).toList)
    else line

/-- DbgInstance.generate_hdl on one file: the declaration-location hack,
    then the line loop, concatenating everything written to the output. -/
def generate_hdl_text (cfg : GenCfg) (lines : List (List Char)) : List Char :=
  ((lines.enum).map (fun p =>
    process_line cfg (normalizeDeclLoc cfg.port_line cfg.declaration_location) p.1 p.2)).flatten

/-- Whether line number n (0-based) is the line of any anchor generate_hdl
    reacts to, for the normalized declaration location dl. -/
def isAnchorLine (cfg : GenCfg) (dl : Nat × Nat) (n : Nat) : Bool :=
  n == cfg.module_location.1 - 1 || n == cfg.port_line - 1 || n == dl.1 - 1
    || n == cfg.endmodule_location.1 - 1
    || cfg.subs.any (fun s => n == s.inst_type_loc.1 - 1 || n == s.port_loc.1 - 1)

/-- Number of newline characters, i.e. of complete lines, in output text. -/
def countNL (s : List Char) : Nat := (s.filter (fun c => c == '\n')).length

/-- Number of WT_DEBUG marker lines in output text; every inserted block
    contributes exactly two. -/
def markerLineCount (s : List Char) : Nat :=
  ((splitOnChar '\n' s).filter (fun l => l == ("//---WT_DEBUG---").toList)).length

/- ### Layout bookkeeping used to state the position claims -/

/-- Running cumulative widths: cumWidths [w1, w2, w3] acc is
    [acc+w1, acc+w1+w2, acc+w1+w2+w3]. -/
def cumWidths : List Nat → Nat → List Nat
  | [], _ => []
  | w :: ws, acc => (acc + w) :: cumWidths ws (acc + w)

/-- The vector positions of all nets in depth-first order after running
    set_vector_pos from offset 0 on the root. -/
def posList (t : DbgInstance) : List (Option Nat) :=
  ((t.set_vector_pos 0).1.allNets).map (fun n => n.vector_pos)

/-- The layout property asserted by the spec: each net's MSB position is
    globalWidth - 1 - its depth-first rank, positions are pairwise distinct,
    and they cover [0, globalWidth-1] exactly once. -/
def c1ClaimHolds (t : DbgInstance) : Prop :=
  posList t = (List.range (t.allNets).length).map (fun k => some ((t.set_port_widths).2 - 1 - k))
  ∧ (posList t).Nodup
  ∧ ∀ j < (t.set_port_widths).2, some j ∈ posList t

instance c1ClaimHoldsDecidable (t : DbgInstance) : Decidable (c1ClaimHolds t) := by
  unfold c1ClaimHolds
  infer_instance

/- ### The spec's end-to-end scenario: top with one child core0 holding
   din_valid (width 1, appended first) and dout[7:0] (width 8, second) -/

def din_valid_net : DbgNet :=
  ⟨"core0.din_valid", "din_valid", 1, false, none⟩

def dout_net : DbgNet :=
  ⟨"core0.dout[7:0]", "dout[7:0]", 8, true, none⟩

def core0_inst : DbgInstance :=
  .mk "core0" "core" 0 false none [din_valid_net, dout_net] .nil

def exTree : DbgInstance :=
  .mk "Top" "top" 0 true none [] (.cons core0_inst .nil)

/-- exTree after the width pass. -/
def exTreeW : DbgInstance := (exTree.set_port_widths).1

/-- The spec's two-children scenario: core0 appended before core1. -/
def topTwoKids : DbgInstance :=
  .mk "Top" "top" 0 true none []
    (.cons (.mk "core0" "core" 0 false none [] .nil)
      (.cons (.mk "core1" "core" 1 false none [] .nil) .nil))

/- ### A concrete patcher run: a six-line non-top 2001-style module -/

/-- A plain non-top module file, one string per line including its
    newline. -/
def linesEx : List (List Char) :=
  [("module core (\n").toList,
   ("  output [7:0] dout\n").toList,
   (");\n").toList,
   ("wire a;\n").toList,
   ("assign dout = 0;\n").toList,
   ("endmodule\n").toList]

/-- The generate_hdl state for linesEx: module header and port list both on
    line 1 (the type token at column 8, the open parenthesis at column 13),
    declaration point at the closing semicolon on line 3, endmodule on
    line 6; one local net, no sub-instances, ANSI ports. -/
def cfgEx : GenCfg :=
  { module_type := "core"
    inst_id := 0
    is_top := false
    port_width := 9
    module_location := (1, 8)
    port_line := 1
    port_col := 13
    mod_style := MOD_STYLE_2001
    declaration_location := (3, 2)
    endmodule_location := (6, 1)
    subs := []
    local_net_names := ["dout"]
    wt_instance_string := "" }

/-- The lines of generate_hdl_text cfgEx linesEx (split on newline; the
    trailing empty piece witnesses that the text ends in a newline). -/
def expectedOutEx : List (List Char) :=
  [("module core_wt0 (").toList,
   ("//---WT_DEBUG---").toList,
   ("  output [8:0] wt_debug,").toList,
   ("//---WT_DEBUG---").toList,
   ("  output [7:0] dout").toList,
   (");").toList,
   ("wire a;").toList,
   ("assign dout = 0;").toList,
   ("").toList,
   ("//---WT_DEBUG---").toList,
   ("  assign wt_debug = {dout};").toList,
   ("//---WT_DEBUG---").toList,
   ("endmodule").toList,
   ("").toList]

/- ### Helper lemmas about the string-scanning utilities -/

theorem isPrefixOf_exists : ∀ (pat l : List Char), pat.isPrefixOf l = true → ∃ t, l = pat ++ t := by
  intro pat
  induction pat with
  | nil => intro l _; exact ⟨l, rfl⟩
  | cons p ps ih =>
    intro l h
    cases l with
    | nil => simp [List.isPrefixOf] at h
    | cons c rest =>
      simp only [List.isPrefixOf, Bool.and_eq_true, beq_iff_eq] at h
      obtain ⟨t, ht⟩ := ih rest h.2
      exact ⟨t, by rw [h.1, List.cons_append, ← ht]⟩

theorem findOcc_pos (l pat : List Char) (h : pat.isPrefixOf l = true) :
    findOcc l pat = some ([], l.drop pat.length) := by
  rw [findOcc.eq_def, if_pos h]

theorem findOcc_neg_nil (pat : List Char) (h : ¬ pat.isPrefixOf ([] : List Char) = true) :
    findOcc [] pat = none := by
  rw [findOcc.eq_def, if_neg h]

theorem findOcc_neg_cons (c : Char) (rest pat : List Char)
    (h : ¬ pat.isPrefixOf (c :: rest) = true) :
    findOcc (c :: rest) pat = (findOcc rest pat).map (fun p => (c :: p.1, p.2)) := by
  rw [findOcc.eq_def, if_neg h]

theorem replaceScan_zero_cons (pat rep : List Char) (c : Char) (rest : List Char) :
    replaceScan pat rep 0 (c :: rest)
      = if pat ≠ [] ∧ pat.isPrefixOf (c :: rest) then
          rep ++ replaceScan pat rep (pat.length - 1) rest
        else c :: replaceScan pat rep 0 rest := by
  rw [replaceScan]

theorem findOcc_eq (pat : List Char) :
    ∀ (l a b : List Char), findOcc l pat = some (a, b) → l = a ++ pat ++ b := by
  intro l
  induction l with
  | nil =>
    intro a b h
    by_cases hp : pat.isPrefixOf ([] : List Char) = true
    · rw [findOcc_pos [] pat hp] at h
      obtain ⟨t, ht⟩ := isPrefixOf_exists pat [] hp
      have hpat : pat = [] := by
        cases pat with
        | nil => rfl
        | cons x xs => exact absurd ht.symm (by simp)
      subst hpat
      simp only [Option.some.injEq, Prod.mk.injEq, List.drop_nil] at h
      rw [← h.1, ← h.2]
      rfl
    · rw [findOcc_neg_nil pat hp] at h
      exact absurd h (by simp)
  | cons c rest ih =>
    intro a b h
    by_cases hp : pat.isPrefixOf (c :: rest) = true
    · rw [findOcc_pos (c :: rest) pat hp] at h
      obtain ⟨t, ht⟩ := isPrefixOf_exists pat (c :: rest) hp
      simp only [Option.some.injEq, Prod.mk.injEq] at h
      rw [← h.1, ← h.2, ht, List.drop_left]
      simp
    · rw [findOcc_neg_cons c rest pat hp] at h
      cases hr : findOcc rest pat with
      | none => rw [hr] at h; simp at h
      | some p =>
        rw [hr] at h
        simp only [Option.map_some', Option.some.injEq, Prod.mk.injEq] at h
        have hrest := ih p.1 p.2 (by rw [hr])
        rw [← h.1, ← h.2]
        simp [hrest]

theorem replaceScan_skip (pat rep : List Char) :
    ∀ (k : Nat) (l : List Char), replaceScan pat rep k l = replaceScan pat rep 0 (l.drop k) := by
  intro k
  induction k with
  | zero => intro l; simp
  | succ k ih =>
    intro l
    cases l with
    | nil => simp [replaceScan]
    | cons c rest => simpa [replaceScan] using ih rest

theorem replaceAll_of_none (pat rep : List Char) :
    ∀ l : List Char, findOcc l pat = none → replaceAllCh pat rep l = l := by
  intro l
  induction l with
  | nil => intro _; rfl
  | cons c rest ih =>
    intro h
    by_cases hp : pat.isPrefixOf (c :: rest) = true
    · rw [findOcc_pos (c :: rest) pat hp] at h
      exact absurd h (by simp)
    · rw [findOcc_neg_cons c rest pat hp] at h
      have hr : findOcc rest pat = none := by
        cases hr : findOcc rest pat with
        | none => rfl
        | some p => rw [hr] at h; simp at h
      show replaceScan pat rep 0 (c :: rest) = c :: rest
      rw [replaceScan_zero_cons, if_neg (by simp [hp])]
      have := ih hr
      rw [show replaceAllCh pat rep rest = replaceScan pat rep 0 rest from rfl] at this
      rw [this]

theorem replaceAll_of_some (pat rep : List Char) (hpat : pat ≠ []) :
    ∀ (l a b : List Char), findOcc l pat = some (a, b) →
      replaceAllCh pat rep l = a ++ rep ++ replaceAllCh pat rep b := by
  intro l
  induction l with
  | nil =>
    intro a b h
    by_cases hp : pat.isPrefixOf ([] : List Char) = true
    · obtain ⟨t, ht⟩ := isPrefixOf_exists pat [] hp
      cases pat with
      | nil => exact absurd rfl hpat
      | cons x xs => exact absurd ht.symm (by simp)
    · rw [findOcc_neg_nil pat hp] at h
      exact absurd h (by simp)
  | cons c rest ih =>
    intro a b h
    by_cases hp : pat.isPrefixOf (c :: rest) = true
    · rw [findOcc_pos (c :: rest) pat hp] at h
      simp only [Option.some.injEq, Prod.mk.injEq] at h
      show replaceScan pat rep 0 (c :: rest) = a ++ rep ++ replaceAllCh pat rep b
      rw [replaceScan_zero_cons, if_pos ⟨hpat, hp⟩, replaceScan_skip]
      rw [← h.1, ← h.2]
      cases pat with
      | nil => exact absurd rfl hpat
      | cons x xs => simp [replaceAllCh]
    · rw [findOcc_neg_cons c rest pat hp] at h
      cases hr : findOcc rest pat with
      | none => rw [hr] at h; simp at h
      | some p =>
        rw [hr] at h
        simp only [Option.map_some', Option.some.injEq, Prod.mk.injEq] at h
        have hrest := ih p.1 p.2 (by rw [hr])
        show replaceScan pat rep 0 (c :: rest) = a ++ rep ++ replaceAllCh pat rep b
        rw [replaceScan_zero_cons, if_neg (by simp [hp])]
        rw [show replaceAllCh pat rep rest = replaceScan pat rep 0 rest from rfl] at hrest
        rw [hrest, ← h.1, ← h.2]
        simp

theorem replaceFirst_of_some (pat rep : List Char) (l a b : List Char)
    (h : findOcc l pat = some (a, b)) : replaceFirstCh pat rep l = a ++ rep ++ b := by
  unfold replaceFirstCh
  rw [h]

theorem c8_decl_normalization : ∀ (port_line : Nat) (decl : Nat × Nat),
    (port_line = decl.1 → normalizeDeclLoc port_line decl = (decl.1 + 1, 0))
    ∧ (port_line ≠ decl.1 → normalizeDeclLoc port_line decl = decl) := by
  intro pl decl
  constructor
  · intro h; simp [normalizeDeclLoc, h]
  · intro h; simp [normalizeDeclLoc, h]

theorem c8_decl_normalization_witness : normalizeDeclLoc 3 (3, 5) = (4, 0) :=
  (c8_decl_normalization 3 (3, 5)).1 rfl

/-- C9: on the instance's own module-header line every occurrence of the
    module-type substring is suffixed with the variant id (replace without a
    count), while the rename on a child instance-type line suffixes only the
    first occurrence (replace with count 1).  The hypotheses pin the first
    two occurrences of the module type in the line and require no further
    occurrence. -/
theorem c9_rename_semantics (mt ids : String) (line a b c d : List Char)
    (hne : mt.toList ≠ [])
    (h1 : findOcc line mt.toList = some (a, b))
    (h2 : findOcc b mt.toList = some (c, d))
    (h3 : findOcc d mt.toList = none) :
    line = a ++ mt.toList ++ (c ++ mt.toList ++ d)
    ∧ module_header_rename mt ids line = a ++ (mt ++ ids).toList ++ (c ++ (mt ++ ids).toList ++ d)
    ∧ inst_type_rename mt ids line = a ++ (mt ++ ids).toList ++ (c ++ mt.toList ++ d) := by
  have hb : b = c ++ mt.toList ++ d := findOcc_eq mt.toList b c d h2
  have hline : line = a ++ mt.toList ++ b := findOcc_eq mt.toList line a b h1
  refine ⟨by rw [hline, hb]; try simp, ?_, ?_⟩
  · have e1 : module_header_rename mt ids line
        = a ++ (mt ++ ids).toList ++ replaceAllCh mt.toList (mt ++ ids).toList b := by
      unfold module_header_rename
      exact replaceAll_of_some mt.toList (mt ++ ids).toList hne line a b h1
    have e2 : replaceAllCh mt.toList (mt ++ ids).toList b
        = c ++ (mt ++ ids).toList ++ replaceAllCh mt.toList (mt ++ ids).toList d :=
      replaceAll_of_some mt.toList (mt ++ ids).toList hne b c d h2
    have e3 : replaceAllCh mt.toList (mt ++ ids).toList d = d :=
      replaceAll_of_none mt.toList (mt ++ ids).toList d h3
    rw [e1, e2, e3]
    try simp
  · have e1 : inst_type_rename mt ids line = a ++ (mt ++ ids).toList ++ b :=
      replaceFirst_of_some mt.toList (mt ++ ids).toList line a b h1
    rw [e1, hb]
    try simp

theorem c9_rename_semantics_witness :
    module_header_rename ("core") ("_wt0") (("core core0 (").toList)
      = ("core_wt0 core_wt00 (").toList
    ∧ inst_type_rename ("core") ("_wt0") (("core core0 (").toList)
      = ("core_wt0 core0 (").toList := by
  have h := c9_rename_semantics ("core") ("_wt0") (("core core0 (").toList)
    ([]) ((" core0 (").toList) ([' ']) (("0 (").toList)
    (by decide) (by decide) (by decide) (by decide)
  exact ⟨by rw [h.2.1]; decide, by rw [h.2.2]; decide⟩

/- ### Helper lemmas about net-string parsing -/

theorem extractBracket_none : ∀ l : List Char, '[' ∉ l → extractBracket l = none := by
  intro l
  induction l with
  | nil => intro _; rfl
  | cons c rest ih =>
    intro h
    simp only [List.mem_cons, not_or] at h
    have hc : ¬ c = '[' := fun hc => h.1 hc.symm
    simp only [extractBracket]
    rw [if_neg hc]
    exact ih h.2

theorem upToClose_append : ∀ (s rest : List Char), ']' ∉ s → '\n' ∉ s →
    upToClose (s ++ (']' :: rest)) = some s := by
  intro s
  induction s with
  | nil => intro rest _ _; simp [upToClose]
  | cons c s ih =>
    intro rest h1 h2
    simp only [List.mem_cons, not_or] at h1 h2
    have hc1 : ¬ c = ']' := fun hc => h1.1 hc.symm
    have hc2 : ¬ c = '\n' := fun hc => h2.1 hc.symm
    show upToClose (c :: (s ++ (']' :: rest))) = some (c :: s)
    simp only [upToClose]
    rw [if_neg hc1, if_neg hc2, ih rest h1.2 h2.2]
    rfl

theorem extractBracket_found : ∀ (name rest r : List Char), '[' ∉ name →
    upToClose rest = some r → extractBracket (name ++ ('[' :: rest)) = some r := by
  intro name
  induction name with
  | nil =>
    intro rest r _ hu
    show extractBracket ('[' :: rest) = some r
    simp only [extractBracket]
    rw [if_pos trivial, hu]
  | cons c name ih =>
    intro rest r h hu
    simp only [List.mem_cons, not_or] at h
    have hc : ¬ c = '[' := fun hc => h.1 hc.symm
    show extractBracket (c :: (name ++ ('[' :: rest))) = some r
    simp only [extractBracket]
    rw [if_neg hc]
    exact ih rest r h.2 hu

theorem splitOnChar_no_sep (sep : Char) : ∀ l : List Char, sep ∉ l →
    splitOnChar sep l = [l] := by
  intro l
  induction l with
  | nil => intro _; rfl
  | cons c rest ih =>
    intro h
    simp only [List.mem_cons, not_or] at h
    have hc : ¬ c = sep := fun hc => h.1 hc.symm
    simp only [splitOnChar]
    rw [if_neg hc, ih h.2]

theorem splitOnChar_append (sep : Char) : ∀ (s1 s2 : List Char), sep ∉ s1 →
    splitOnChar sep (s1 ++ (sep :: s2)) = s1 :: splitOnChar sep s2 := by
  intro s1
  induction s1 with
  | nil => intro s2 _; simp [splitOnChar]
  | cons c s1 ih =>
    intro s2 h
    simp only [List.mem_cons, not_or] at h
    have hc : ¬ c = sep := fun hc => h.1 hc.symm
    show splitOnChar sep (c :: (s1 ++ (sep :: s2))) = (c :: s1) :: splitOnChar sep s2
    simp only [splitOnChar]
    rw [if_neg hc, ih s2 h.2]

theorem splitOnChar_ne_nil (sep : Char) : ∀ l : List Char, splitOnChar sep l ≠ [] := by
  intro l
  induction l with
  | nil => simp [splitOnChar]
  | cons c rest ih =>
    simp only [splitOnChar]
    by_cases hc : c = sep
    · rw [if_pos hc]; simp
    · rw [if_neg hc]
      cases h : splitOnChar sep rest with
      | nil => exact absurd h ih
      | cons x xs => simp

theorem mem_of_mem_splitOnChar (sep : Char) :
    ∀ (l part : List Char) (x : Char), part ∈ splitOnChar sep l → x ∈ part → x ∈ l := by
  intro l
  induction l with
  | nil =>
    intro part x hp hx
    simp only [splitOnChar, List.mem_singleton] at hp
    subst hp
    exact absurd hx (by simp)
  | cons c rest ih =>
    intro part x hp hx
    simp only [splitOnChar] at hp
    by_cases hc : c = sep
    · rw [if_pos hc] at hp
      rcases List.mem_cons.mp hp with h | h
      · subst h; exact absurd hx (by simp)
      · exact List.mem_cons_of_mem c (ih part x h hx)
    · rw [if_neg hc] at hp
      cases hs : splitOnChar sep rest with
      | nil => exact absurd hs (splitOnChar_ne_nil sep rest)
      | cons x0 xs =>
        rw [hs] at hp
        rcases List.mem_cons.mp hp with h | h
        · subst h
          rcases List.mem_cons.mp hx with h | h
          · exact h ▸ List.mem_cons_self c rest
          · exact List.mem_cons_of_mem c (ih x0 x (hs ▸ List.mem_cons_self x0 xs) h)
        · exact List.mem_cons_of_mem c (ih part x (hs ▸ List.mem_cons_of_mem x0 h) hx)

theorem lastSegAux_mem : ∀ L : List (List Char), L ≠ [] → lastSegAux L ∈ L := by
  intro L
  induction L with
  | nil => intro h; exact absurd rfl h
  | cons a L ih =>
    intro _
    cases L with
    | nil => simp [lastSegAux]
    | cons b Lp => exact List.mem_cons_of_mem a (ih (by simp))

theorem mem_of_mem_lastSeg (l : List Char) (x : Char) (h : x ∈ lastSeg l) : x ∈ l := by
  unfold lastSeg at h
  exact mem_of_mem_splitOnChar '.' l (lastSegAux (splitOnChar '.' l)) x
    (lastSegAux_mem (splitOnChar '.' l) (splitOnChar_ne_nil '.' l)) h

theorem net_range_no_bracket (l : List Char) (h : '[' ∉ l) :
    net_range (String.mk l) = some (0, 0) := by
  unfold net_range
  rw [show (String.mk l).toList = l from rfl, extractBracket_none l h]

theorem net_width_no_bracket (l : List Char) (h : '[' ∉ l) :
    net_width (String.mk l) = some 1 := by
  unfold net_width
  rw [net_range_no_bracket l h]
  simp

theorem toList_mk (l : List Char) : (String.mk l).toList = l := rfl

theorem net_range_eval (s : String) (contents : List Char)
    (hb : extractBracket s.toList = some contents) :
    net_range s
      = (match splitOnChar ':' contents with
         | [x] => (parseInt x).map (fun n => (n, n))
         | x :: y :: _ => (parseInt x).bind (fun hi => (parseInt y).map (fun lo => (hi, lo)))
         | [] => none) := by
  unfold net_range
  rw [hb]

theorem net_range_two_part (name s1 s2 : List Char)
    (hn : '[' ∉ name) (h1c : ']' ∉ s1) (h1n : '\n' ∉ s1) (h1s : ':' ∉ s1)
    (h2c : ']' ∉ s2) (h2n : '\n' ∉ s2) (h2s : ':' ∉ s2) :
    net_range (String.mk (name ++ ('[' :: ((s1 ++ (':' :: s2)) ++ ([']'])))))
      = (parseInt s1).bind (fun hi => (parseInt s2).map (fun lo => (hi, lo))) := by
  have hmid1 : ']' ∉ s1 ++ (':' :: s2) := by
    simp only [List.mem_append, List.mem_cons, not_or]
    exact ⟨h1c, by decide, h2c⟩
  have hmid2 : '\n' ∉ s1 ++ (':' :: s2) := by
    simp only [List.mem_append, List.mem_cons, not_or]
    exact ⟨h1n, by decide, h2n⟩
  have hclose : upToClose ((s1 ++ (':' :: s2)) ++ (']' :: [])) = some (s1 ++ (':' :: s2)) :=
    upToClose_append (s1 ++ (':' :: s2)) [] hmid1 hmid2
  have hb : extractBracket (name ++ ('[' :: ((s1 ++ (':' :: s2)) ++ ([']']))))
      = some (s1 ++ (':' :: s2)) :=
    extractBracket_found name ((s1 ++ (':' :: s2)) ++ ([']'])) (s1 ++ (':' :: s2)) hn hclose
  have hsplit : splitOnChar ':' (s1 ++ (':' :: s2)) = [s1, s2] := by
    rw [splitOnChar_append ':' s1 s2 h1s, splitOnChar_no_sep ':' s2 h2s]
  rw [net_range_eval _ (s1 ++ (':' :: s2)) (by rw [toList_mk]; exact hb), hsplit]

theorem net_range_one_part (name s1 : List Char)
    (hn : '[' ∉ name) (h1c : ']' ∉ s1) (h1n : '\n' ∉ s1) (h1s : ':' ∉ s1) :
    net_range (String.mk (name ++ ('[' :: (s1 ++ ([']'])))))
      = (parseInt s1).map (fun n => (n, n)) := by
  have hclose : upToClose (s1 ++ (']' :: [])) = some s1 :=
    upToClose_append s1 [] h1c h1n
  have hb : extractBracket (name ++ ('[' :: (s1 ++ ([']'])))) = some s1 :=
    extractBracket_found name (s1 ++ ([']'])) s1 hn hclose
  have hsplit : splitOnChar ':' s1 = [s1] := splitOnChar_no_sep ':' s1 h1s
  rw [net_range_eval _ s1 (by rw [toList_mk]; exact hb), hsplit]

/-- C7: for a net string name[hi:lo] with integer hi and lo the extracted
    width is abs(hi - lo) + 1, for name[b] it is 1, and for a bare name with
    no bracket it is 1.  The membership hypotheses say that the name and the
    range parts are bracket-free, colon-free tokens. -/
theorem c7_net_width (name s1 s2 : List Char) (hi lo : Int)
    (hn : '[' ∉ name) (h1c : ']' ∉ s1) (h1n : '\n' ∉ s1) (h1s : ':' ∉ s1)
    (h2c : ']' ∉ s2) (h2n : '\n' ∉ s2) (h2s : ':' ∉ s2)
    (hp1 : parseInt s1 = some hi) (hp2 : parseInt s2 = some lo) :
    net_width (String.mk (name ++ ('[' :: ((s1 ++ (':' :: s2)) ++ ([']'])))))
      = some ((hi - lo).natAbs + 1)
    ∧ net_width (String.mk (name ++ ('[' :: (s1 ++ ([']']))))) = some 1
    ∧ net_width (String.mk name) = some 1 := by
  refine ⟨?_, ?_, net_width_no_bracket name hn⟩
  · unfold net_width
    rw [net_range_two_part name s1 s2 hn h1c h1n h1s h2c h2n h2s, hp1, hp2]
    rfl
  · unfold net_width
    rw [net_range_one_part name s1 hn h1c h1n h1s, hp1]
    simp

theorem c7_net_width_witness :
    net_width (String.mk ((("data").toList)
        ++ ('[' :: (((("7").toList) ++ (':' :: (("0").toList))) ++ ([']'])))))
      = some (((7 : Int) - 0).natAbs + 1)
    ∧ net_width (String.mk ((("data").toList) ++ ('[' :: ((("7").toList) ++ ([']']))))) = some 1
    ∧ net_width (String.mk (("data").toList)) = some 1 :=
  c7_net_width (("data").toList) (("7").toList) (("0").toList) 7 0
    (by decide) (by decide) (by decide) (by decide) (by decide) (by decide) (by decide)
    (by decide) (by decide)

/-- C10: net_range, and therefore net_width, has no guarded error branch for
    non-numeric range contents: whenever either colon-separated part of the
    bracket group fails integer parsing (the uncaught Python ValueError,
    modelled as none), the whole call yields none rather than a value. -/
theorem c10_net_range_raises (name s1 s2 : List Char)
    (hn : '[' ∉ name) (h1c : ']' ∉ s1) (h1n : '\n' ∉ s1) (h1s : ':' ∉ s1)
    (h2c : ']' ∉ s2) (h2n : '\n' ∉ s2) (h2s : ':' ∉ s2)
    (hfail : parseInt s1 = none ∨ parseInt s2 = none) :
    net_range (String.mk (name ++ ('[' :: ((s1 ++ (':' :: s2)) ++ ([']']))))) = none
    ∧ net_width (String.mk (name ++ ('[' :: ((s1 ++ (':' :: s2)) ++ ([']']))))) = none := by
  have hr : net_range (String.mk (name ++ ('[' :: ((s1 ++ (':' :: s2)) ++ ([']']))))) = none := by
    rw [net_range_two_part name s1 s2 hn h1c h1n h1s h2c h2n h2s]
    rcases hfail with h | h
    · rw [h]; rfl
    · cases h1 : parseInt s1 with
      | none => rfl
      | some v => rw [h]; rfl
  refine ⟨hr, ?_⟩
  unfold net_width
  rw [hr]
  rfl

theorem c10_net_range_raises_witness :
    net_range (String.mk ((("data").toList)
        ++ ('[' :: (((("WIDTH-1").toList) ++ (':' :: (("0").toList))) ++ ([']'])))))
      = none
    ∧ net_width (String.mk ((("data").toList)
        ++ ('[' :: (((("WIDTH-1").toList) ++ (':' :: (("0").toList))) ++ ([']'])))))
      = none :=
  c10_net_range_raises (("data").toList) (("WIDTH-1").toList) (("0").toList)
    (by decide) (by decide) (by decide) (by decide) (by decide) (by decide) (by decide)
    (Or.inl (by decide))

/-- C3: a net path without a bracketed range whose net is declared VECTOR
    fails with the ambiguous-width error; a path with a range matching a
    VECTOR declaration succeeds with has_range true.  Contrary to the claim,
    a path with a range whose declaration is SCALAR ("single") is accepted
    as well, with has_range false: the build never errors on that case. -/
theorem c3_ambiguous_width_amended (net_type path : String) :
    (net_type = "vector" → ('[' ∈ path.toList → False) →
      addTerminalNet net_type path
        = .error ("Unable to extract bit range from net name '" ++ path
            ++ "', please append a bit range to all multi-bit nets"))
    ∧ (net_type = "vector" → '[' ∈ path.toList →
        ∀ w, net_width (String.mk (lastSeg path.toList)) = some w →
          addTerminalNet net_type path
            = .ok ⟨path, String.mk (lastSeg path.toList), w, true, none⟩)
    ∧ (net_type = "single" →
        ∀ w, net_width (String.mk (lastSeg path.toList)) = some w →
          addTerminalNet net_type path
            = .ok ⟨path, String.mk (lastSeg path.toList), w, false, none⟩) := by
  refine ⟨?_, ?_, ?_⟩
  · intro hv hnb
    subst hv
    have hlw : net_width (String.mk (lastSeg path.toList)) = some 1 :=
      net_width_no_bracket (lastSeg path.toList)
        (fun hm => hnb (mem_of_mem_lastSeg path.toList '[' hm))
    unfold addTerminalNet mkDbgNet
    rw [if_neg (by decide : ¬ ("vector" : String) = "none"), hlw]
    simp only [Option.map_some']
    rw [if_pos ⟨hnb, rfl⟩]
  · intro hv hmem w hw
    subst hv
    unfold addTerminalNet mkDbgNet
    rw [if_neg (by decide : ¬ ("vector" : String) = "none"), hw]
    simp only [Option.map_some']
    rw [if_neg (fun hcon => hcon.1 hmem)]
    rfl
  · intro hs w hw
    subst hs
    unfold addTerminalNet mkDbgNet
    rw [if_neg (by decide : ¬ ("single" : String) = "none"), hw]
    simp only [Option.map_some']
    rw [if_neg (fun hcon => absurd hcon.2 (by decide))]
    rfl

theorem c3_ambiguous_width_amended_witness :
    addTerminalNet ("vector") ("core0.dout[7:0]")
      = .ok ⟨"core0.dout[7:0]", "dout[7:0]", 8, true, none⟩ :=
  (c3_ambiguous_width_amended ("vector") ("core0.dout[7:0]")).2.1 rfl (by decide) 8 (by decide)

/-- C3 counterexample: a terminal token carrying a bracketed range whose
    declaration is SCALAR ("single") does not fail at all — the build
    accepts it, storing has_range false — whereas the claim requires an
    AmbiguousWidth failure. -/
theorem c3_counterexample :
    addTerminalNet ("single") ("core0.dout[7:0]")
      = .ok ⟨"core0.dout[7:0]", "dout[7:0]", 8, false, none⟩
    ∧ ∀ e : String, addTerminalNet ("single") ("core0.dout[7:0]") ≠ .error e := by
  have h0 : addTerminalNet ("single") ("core0.dout[7:0]")
      = .ok ⟨"core0.dout[7:0]", "dout[7:0]", 8, false, none⟩ := by rfl
  refine ⟨h0, fun e he => ?_⟩
  rw [h0] at he
  exact Except.noConfusion he

theorem data_append_eq (a b : String) : (a ++ b).data = a.data ++ b.data := by
  cases a
  cases b
  rfl

theorem joinSep_infix (sep : String) : ∀ (ms : List String) (f : String), f ∈ ms →
    ∃ u v, (joinSep sep ms).data = u ++ f.data ++ v := by
  intro ms
  induction ms with
  | nil => intro f hf; exact absurd hf (by simp)
  | cons x rest ih =>
    intro f hf
    cases rest with
    | nil =>
      have hx : f = x := by simpa using hf
      subst hx
      exact ⟨[], [], by simp [joinSep]⟩
    | cons y rest2 =>
      rcases List.mem_cons.mp hf with h | h
      · subst h
        refine ⟨[], sep.data ++ (joinSep sep (y :: rest2)).data, ?_⟩
        simp [joinSep, data_append_eq, List.append_assoc]
      · obtain ⟨u, v, huv⟩ := ih f h
        refine ⟨x.data ++ sep.data ++ u, v, ?_⟩
        simp [joinSep, data_append_eq, huv, List.append_assoc]

theorem find?_of_filter_cons (p : String × String → Bool) :
    ∀ (src : List (String × String)) (m : String × String) (rest : List (String × String)),
      src.filter p = m :: rest → src.find? p = some m := by
  intro src
  induction src with
  | nil => intro m rest h; simp at h
  | cons a src ih =>
    intro m rest h
    by_cases hp : p a = true
    · rw [List.filter_cons_of_pos hp] at h
      injection h with h1 h2
      rw [List.find?_cons_of_pos _ hp, h1]
    · rw [List.filter_cons_of_neg (by simpa using hp)] at h
      rw [List.find?_cons_of_neg _ (by simpa using hp)]
      exact ih m rest h

/-- C6: resolving a module type defined in more than one registered file
    fails with the AmbiguousModule error whose message contains every
    offending file; a type with zero definitions fails with the
    UnknownModule error; resolution succeeds exactly when there is one
    match, returning its file. -/
theorem c6_module_resolution (src : List (String × String)) (t : String) :
    ((moduleMatches src t).length > 1 →
        resolve_module src t = .error (ambiguousModuleMsg t (moduleMatches src t))
        ∧ ∀ f ∈ moduleMatches src t, ∃ u v,
            (ambiguousModuleMsg t (moduleMatches src t)).data = u ++ f.data ++ v)
    ∧ ((moduleMatches src t).length = 0 → resolve_module src t = .error (unknownModuleMsg t))
    ∧ (∀ f, resolve_module src t = .ok f → moduleMatches src t = [f]) := by
  refine ⟨?_, ?_, ?_⟩
  · intro hlen
    have hme : module_exists src t = .error (ambiguousModuleMsg t (moduleMatches src t)) := by
      unfold module_exists
      rw [if_neg (by omega), if_pos hlen]
    constructor
    · unfold resolve_module
      rw [hme]
    · intro f hf
      obtain ⟨u, v, huv⟩ := joinSep_infix (", ") (moduleMatches src t) f hf
      unfold ambiguousModuleMsg
      refine ⟨("Found multiple definitions for module '" ++ t ++ "' in these files: ").data ++ u,
        v ++ (". You can exclude source files or directories with the 'rm_sources()' function)").data,
        ?_⟩
      simp [data_append_eq, huv, List.append_assoc]
  · intro hlen
    have hme : module_exists src t = .ok false := by
      unfold module_exists
      rw [if_pos hlen]
    unfold resolve_module
    rw [hme]
  · intro f hok
    unfold resolve_module at hok
    cases hme : module_exists src t with
    | error e => rw [hme] at hok; exact absurd hok (by simp)
    | ok b =>
      cases b with
      | false => rw [hme] at hok; exact absurd hok (by simp)
      | true =>
        rw [hme] at hok
        cases hgf : get_fname src t with
        | none => rw [hgf] at hok; exact absurd hok (by simp)
        | some g =>
          rw [hgf] at hok
          have hgof : g = f := by simpa using hok
          subst hgof
          have hlen : (moduleMatches src t).length = 1 := by
            unfold module_exists at hme
            by_cases h0 : (moduleMatches src t).length = 0
            · rw [if_pos h0] at hme; exact absurd hme (by simp)
            · rw [if_neg h0] at hme
              by_cases h1 : (moduleMatches src t).length > 1
              · rw [if_pos h1] at hme; exact absurd hme (by simp)
              · omega
          have hflen : ((src.filter (fun m => m.1 == t))).length = 1 := by
            have := hlen
            unfold moduleMatches at this
            rwa [List.length_map] at this
          obtain ⟨m0, hm0⟩ := List.length_eq_one.mp hflen
          have hfind : src.find? (fun m => m.1 == t) = some m0 :=
            find?_of_filter_cons (fun m => m.1 == t) src m0 [] hm0
          have hg2 : get_fname src t = some m0.2 := by
            unfold get_fname
            rw [hfind]
            rfl
          have hm02 : m0.2 = g := by
            rw [hgf] at hg2
            simpa using hg2.symm
          unfold moduleMatches
          rw [hm0]
          simp [hm02]

theorem c6_module_resolution_witness :
    resolve_module [("core", "a.v"), ("core", "b.v")] ("core")
      = .error (ambiguousModuleMsg ("core")
          (moduleMatches [("core", "a.v"), ("core", "b.v")] ("core")))
    ∧ ∃ u v, (ambiguousModuleMsg ("core")
          (moduleMatches [("core", "a.v"), ("core", "b.v")] ("core"))).data
        = u ++ ("b.v").data ++ v := by
  have h := (c6_module_resolution [("core", "a.v"), ("core", "b.v")] ("core")).1 (by decide)
  exact ⟨h.1, h.2 ("b.v") (by decide)⟩

/- ### Layout lemmas: set_vector_pos and set_port_widths -/

theorem cumWidths_append : ∀ (ws1 ws2 : List Nat) (acc : Nat),
    cumWidths (ws1 ++ ws2) acc = cumWidths ws1 acc ++ cumWidths ws2 (acc + ws1.sum) := by
  intro ws1
  induction ws1 with
  | nil => intro ws2 acc; simp [cumWidths]
  | cons w ws ih =>
    intro ws2 acc
    simp only [List.cons_append, cumWidths, List.sum_cons, List.append_eq]
    rw [ih ws2 (acc + w)]
    simp [Nat.add_assoc]

theorem setNetsPos_snd : ∀ (nets : List DbgNet) (pos : Nat),
    (setNetsPos nets pos).2 = pos + ((nets.map (fun n => n.bit_width)).sum) := by
  intro nets
  induction nets with
  | nil => intro pos; simp [setNetsPos]
  | cons n rest ih =>
    intro pos
    simp only [setNetsPos, List.map_cons, List.sum_cons]
    rw [ih (pos + n.bit_width)]
    omega

theorem setNetsPos_posmap : ∀ (nets : List DbgNet) (pos : Nat),
    ((setNetsPos nets pos).1.map (fun n => n.vector_pos))
      = (cumWidths (nets.map (fun n => n.bit_width)) pos).map (fun s => some (s - 1)) := by
  intro nets
  induction nets with
  | nil => intro pos; rfl
  | cons n rest ih =>
    intro pos
    simp only [setNetsPos, List.map_cons, cumWidths]
    rw [ih (pos + n.bit_width)]

mutual
theorem set_vector_pos_spec (t : DbgInstance) (offset : Nat) :
    (((t.set_vector_pos offset).1.allNets).map (fun n => n.vector_pos))
      = (cumWidths ((t.allNets).map (fun n => n.bit_width)) offset).map (fun s => some (s - 1))
    ∧ (t.set_vector_pos offset).2 = offset + ((t.allNets).map (fun n => n.bit_width)).sum := by
  cases t with
  | mk nm mt id top pw nets subs =>
    have hsub := set_vector_pos_list_spec subs ((setNetsPos nets offset).2)
    have hsnd := setNetsPos_snd nets offset
    constructor
    · simp only [DbgInstance.set_vector_pos, DbgInstance.allNets, List.map_append]
      rw [setNetsPos_posmap nets offset, hsub.1, hsnd]
      rw [cumWidths_append, List.map_append]
    · simp only [DbgInstance.set_vector_pos, DbgInstance.allNets]
      rw [hsub.2, hsnd, List.map_append, List.sum_append]
      omega

theorem set_vector_pos_list_spec (l : DbgInstList) (offset : Nat) :
    (((DbgInstList.set_vector_pos_list l offset).1.allNetsList).map (fun n => n.vector_pos))
      = (cumWidths ((l.allNetsList).map (fun n => n.bit_width)) offset).map (fun s => some (s - 1))
    ∧ (DbgInstList.set_vector_pos_list l offset).2
      = offset + ((l.allNetsList).map (fun n => n.bit_width)).sum := by
  cases l with
  | nil => simp [DbgInstList.set_vector_pos_list, DbgInstList.allNetsList, cumWidths]
  | cons i is =>
    have hi := set_vector_pos_spec i offset
    have his := set_vector_pos_list_spec is ((i.set_vector_pos offset).2)
    constructor
    · simp only [DbgInstList.set_vector_pos_list, DbgInstList.allNetsList, List.map_append]
      rw [hi.1, his.1, hi.2]
      rw [cumWidths_append, List.map_append]
    · simp only [DbgInstList.set_vector_pos_list, DbgInstList.allNetsList]
      rw [his.2, hi.2, List.map_append, List.sum_append]
      omega
end

theorem cumWidths_mem_gt : ∀ (ws : List Nat) (acc : Nat), (∀ w ∈ ws, 1 ≤ w) →
    ∀ x ∈ cumWidths ws acc, acc < x := by
  intro ws
  induction ws with
  | nil => intro acc _ x hx; simp [cumWidths] at hx
  | cons w ws ih =>
    intro acc hw x hx
    simp only [cumWidths, List.mem_cons] at hx
    have hw1 := hw w (by simp)
    rcases hx with h | h
    · omega
    · have := ih (acc + w) (fun u hu => hw u (by simp [hu])) x h
      omega

theorem cumWidths_pairwise : ∀ (ws : List Nat) (acc : Nat), (∀ w ∈ ws, 1 ≤ w) →
    List.Pairwise (fun a b => 1 ≤ a ∧ a < b) (cumWidths ws acc) := by
  intro ws
  induction ws with
  | nil => intro acc _; simp [cumWidths]
  | cons w ws ih =>
    intro acc hw
    simp only [cumWidths]
    refine List.Pairwise.cons ?_ (ih (acc + w) (fun u hu => hw u (by simp [hu])))
    intro b hb
    have hgt := cumWidths_mem_gt ws (acc + w) (fun u hu => hw u (by simp [hu])) b hb
    have hw1 := hw w (by simp)
    exact ⟨by omega, by omega⟩

/-- C1 (amended): set_vector_pos assigns each net, in depth-first order
    (local nets first, then sub-instances), the MSB position equal to the
    running cumulative width through that net minus one — so the FIRST
    net in depth-first order occupies the least-significant block, not the
    most-significant one — the returned offset is the starting offset plus
    the subtree width, and MSB positions are pairwise distinct whenever all
    widths are at least 1.  In the spec's own scenario din_valid receives
    position 0 and dout position 8 (spanning bits 8..1) in the 9-bit
    vector. -/
theorem c1_layout_amended :
    (∀ (t : DbgInstance) (offset : Nat),
        (((t.set_vector_pos offset).1.allNets).map (fun n => n.vector_pos))
          = (cumWidths ((t.allNets).map (fun n => n.bit_width)) offset).map (fun s => some (s - 1))
        ∧ (t.set_vector_pos offset).2 = offset + ((t.allNets).map (fun n => n.bit_width)).sum
        ∧ ((∀ n ∈ t.allNets, 1 ≤ n.bit_width) →
            (((t.set_vector_pos offset).1.allNets).map (fun n => n.vector_pos)).Pairwise
              (fun a b => a ≠ b)))
    ∧ posList exTree = [some 0, some 8]
    ∧ (exTree.set_port_widths).2 = 9 := by
  refine ⟨?_, by decide, by decide⟩
  intro t offset
  have h := set_vector_pos_spec t offset
  refine ⟨h.1, h.2, ?_⟩
  intro hw
  rw [h.1, List.pairwise_map]
  have hcw := cumWidths_pairwise ((t.allNets).map (fun n => n.bit_width)) offset
    (fun w hwm => by
      obtain ⟨n, hn, heq⟩ := List.mem_map.mp hwm
      exact heq ▸ hw n hn)
  refine hcw.imp ?_
  intro a b hab hcontra
  have := Option.some.inj hcontra
  omega

theorem c1_layout_amended_witness :
    (((exTree.set_vector_pos 0).1.allNets).map (fun n => n.vector_pos)).Pairwise
      (fun a b => a ≠ b)
    ∧ (exTree.set_vector_pos 0).2 = 0 + ((exTree.allNets).map (fun n => n.bit_width)).sum := by
  have h := c1_layout_amended.1 exTree 0
  exact ⟨h.2.2 (by decide), h.2.1⟩

/-- C1 counterexample: on the spec's own scenario tree the claimed layout
    (MSB position = globalWidth - 1 - depth-first rank, positions covering
    the range) is false: the code assigns din_valid position 0 and dout
    position 8, while the claim demands [some 8, some 7]. -/
theorem c1_layout_counterexample :
    ¬ c1ClaimHolds exTree
    ∧ posList exTree = [some 0, some 8]
    ∧ (exTree.set_port_widths).2 = 9
    ∧ (List.range ((exTree.allNets).length)).map
        (fun k => some ((exTree.set_port_widths).2 - 1 - k)) = [some 8, some 7] := by
  exact ⟨by decide, by decide, by decide, by decide⟩

mutual
theorem set_port_widths_spec (t : DbgInstance) :
    (t.set_port_widths).2 = ((t.allNets).map (fun n => n.bit_width)).sum
    ∧ (t.set_port_widths).1.allNets = t.allNets
    ∧ ∀ i ∈ (t.set_port_widths).1.allInstances,
        i.port_width = some (((i.allNets).map (fun n => n.bit_width)).sum) := by
  cases t with
  | mk nm mt id top pw nets subs =>
    have hsub := set_port_widths_list_spec subs
    refine ⟨?_, ?_, ?_⟩
    · simp only [DbgInstance.set_port_widths, DbgInstance.allNets, List.map_append,
        List.sum_append]
      rw [hsub.1]
    · simp only [DbgInstance.set_port_widths, DbgInstance.allNets]
      rw [hsub.2.1]
    · intro i hi
      simp only [DbgInstance.set_port_widths, DbgInstance.allInstances] at hi
      rcases List.mem_cons.mp hi with h | h
      · subst h
        simp only [DbgInstance.port_width, DbgInstance.allNets, List.map_append,
          List.sum_append]
        rw [hsub.2.1, hsub.1]
      · exact hsub.2.2 i h

theorem set_port_widths_list_spec (l : DbgInstList) :
    (DbgInstList.set_port_widths_list l).2
      = ((l.allNetsList).map (fun n => n.bit_width)).sum
    ∧ (DbgInstList.set_port_widths_list l).1.allNetsList = l.allNetsList
    ∧ ∀ i ∈ (DbgInstList.set_port_widths_list l).1.allInstancesList,
        i.port_width = some (((i.allNets).map (fun n => n.bit_width)).sum) := by
  cases l with
  | nil =>
    refine ⟨rfl, rfl, ?_⟩
    intro i hi
    simp [DbgInstList.set_port_widths_list, DbgInstList.allInstancesList] at hi
  | cons i is =>
    have hi := set_port_widths_spec i
    have his := set_port_widths_list_spec is
    refine ⟨?_, ?_, ?_⟩
    · simp only [DbgInstList.set_port_widths_list, DbgInstList.allNetsList, List.map_append,
        List.sum_append]
      rw [hi.1, his.1]
    · simp only [DbgInstList.set_port_widths_list, DbgInstList.allNetsList]
      rw [hi.2.1, his.2.1]
    · intro j hj
      simp only [DbgInstList.set_port_widths_list, DbgInstList.allInstancesList] at hj
      rcases List.mem_append.mp hj with h | h
      · exact hi.2.2 j h
      · exact his.2.2 j h
end

/-- C5: the width pass stores at each node the total bit width of its
    subtree's nets, and the value computed at the root equals the sum of
    bit_width over all DbgNets in the whole tree. -/
theorem c5_port_widths :
    (∀ t : DbgInstance, (t.set_port_widths).2 = ((t.allNets).map (fun n => n.bit_width)).sum)
    ∧ (∀ (t : DbgInstance) (k : Nat) (i : DbgInstance),
        ((t.set_port_widths).1.allInstances).get? k = some i →
        i.port_width = some (((i.allNets).map (fun n => n.bit_width)).sum)) := by
  constructor
  · intro t
    exact (set_port_widths_spec t).1
  · intro t k i hk
    exact (set_port_widths_spec t).2.2 i (List.get?_mem hk)

theorem c5_port_widths_witness :
    ((exTreeW.allInstances).get? 1
        = some (DbgInstance.mk "core0" "core" 0 false (some 9) [din_valid_net, dout_net] .nil))
    ∧ (DbgInstance.mk "core0" "core" 0 false (some 9) [din_valid_net, dout_net]
        (.nil : DbgInstList)).port_width
      = some ((((DbgInstance.mk "core0" "core" 0 false (some 9) [din_valid_net, dout_net]
          (.nil : DbgInstList)).allNets).map (fun n => n.bit_width)).sum) := by
  refine ⟨rfl, ?_⟩
  exact c5_port_widths.2 exTree 1
    (DbgInstance.mk "core0" "core" 0 false (some 9) [din_valid_net, dout_net] .nil) rfl

/-- C2 (amended): the assign-statement signal list is the reverse of the
    append-order list (local nets in declaration order followed by
    sub-instance debug wires in child order): children's wires come first in
    reverse child order, then local nets in reverse declaration order, so
    the FIRST-appended net — not the most recently added one — ends up as
    the last, least-significant group of the concatenation.  With children
    core0 then core1, core1's bus is referenced before core0's. -/
theorem c2_assign_order_amended :
    (∀ i : DbgInstance,
        get_assign_sigs i
          = (((i.local_nets).map (fun n => n.name))
              ++ ((i.sub_instances.toList).map (fun s => s.name ++ "_wt_debug"))).reverse)
    ∧ get_assign_sigs topTwoKids = ["core1_wt_debug", "core0_wt_debug"]
    ∧ get_assign_string topTwoKids = "core1_wt_debug,\n                     core0_wt_debug"
    ∧ (get_assign_sigs core0_inst).getLast? = some ("din_valid") := by
  refine ⟨?_, by decide, by decide, by decide⟩
  intro i
  unfold get_assign_sigs
  rw [List.reverse_append, List.map_reverse, List.map_reverse]

/-- C2 counterexample: at core0 the most-recently-added local net (dout,
    appended after din_valid) is the FIRST element of the assign
    concatenation, i.e. its most-significant group (its assigned position 8
    is above din_valid's 0), not the least-significant one; the last,
    least-significant element is the first-appended net din_valid. -/
theorem c2_assign_order_counterexample :
    ((core0_inst.local_nets).map (fun n => n.name)) = ["din_valid", "dout[7:0]"]
    ∧ get_assign_sigs core0_inst = ["dout[7:0]", "din_valid"]
    ∧ (get_assign_sigs core0_inst).getLast? = some ("din_valid")
    ∧ ¬ ((get_assign_sigs core0_inst).getLast? = some ("dout[7:0]"))
    ∧ posList exTree = [some 0, some 8] := by
  refine ⟨by decide, by decide, by decide, by decide, by decide⟩

/- ### C4: the patcher's frame effect -/

theorem instance_scan_none (line : List Char) (n : Nat) :
    ∀ subs : List SubLoc,
      (∀ s ∈ subs, ¬ n = s.inst_type_loc.1 - 1 ∧ ¬ n = s.port_loc.1 - 1) →
      instance_scan line n subs = none := by
  intro subs
  induction subs with
  | nil => intro _; rfl
  | cons s rest ih =>
    intro h
    have hs := h s (by simp)
    simp only [instance_scan]
    rw [if_neg hs.1, if_neg hs.2]
    exact ih (fun u hu => h u (by simp [hu]))

theorem string_append_assoc (a b c : String) : (a ++ b) ++ c = a ++ (b ++ c) := by
  cases a with
  | mk as =>
    cases b with
    | mk bs =>
      cases c with
      | mk cs => exact congrArg String.mk (List.append_assoc as bs cs)

/-- C4 (amended): every line whose number is not an anchor line is emitted
    byte-identical to the input; each matched anchor inserts at most one
    marked block — exactly one for port and endmodule anchors, none for a
    declaration anchor with nothing to declare — and each block adds its
    content lines plus two marker lines and the split of the anchored line,
    so the output line count exceeds the input by the blocks' sizes, not by
    the number of blocks: the six-line example gains two blocks and ends at
    13 lines.  The original file is untouched; output goes to a fresh path
    under output/. -/
theorem c4_patch_frame_amended :
    (∀ (cfg : GenCfg) (dl : Nat × Nat) (n : Nat) (line : List Char),
        isAnchorLine cfg dl n = false → process_line cfg dl n line = line)
    ∧ splitOnChar '\n' (generate_hdl_text cfgEx linesEx) = expectedOutEx
    ∧ linesEx.length = 6
    ∧ countNL (generate_hdl_text cfgEx linesEx) = 13
    ∧ markerLineCount (generate_hdl_text cfgEx linesEx) = 4
    ∧ (∀ (fname ext : String) (i : Nat), ∃ r, output_filename fname ext i = "output/" ++ r) := by
  refine ⟨?_, by decide, by decide, by decide, by decide, ?_⟩
  · intro cfg dl n line h
    unfold isAnchorLine at h
    simp only [Bool.or_eq_false_iff, beq_eq_false_iff_ne, ne_eq, List.any_eq_false,
      Bool.not_eq_true] at h
    obtain ⟨⟨⟨⟨h1, h2⟩, h3⟩, h4⟩, h5⟩ := h
    have hscan : instance_scan line n cfg.subs = none := by
      apply instance_scan_none
      intro s hs
      have hcomp := h5 s hs
      simp only [Bool.or_eq_false_iff, beq_eq_false_iff_ne, ne_eq] at hcomp
      exact hcomp
    simp only [process_line, hscan]
    rw [if_neg h1, if_neg h2, if_neg h3, if_neg h4]
  · intro fname ext i
    refine ⟨fname ++ instIdStr i ++ ext, ?_⟩
    unfold output_filename
    rw [string_append_assoc, string_append_assoc, string_append_assoc]

theorem c4_patch_frame_amended_witness :
    process_line cfgEx (normalizeDeclLoc cfgEx.port_line cfgEx.declaration_location) 3
      (("wire a;\n").toList) = ("wire a;\n").toList :=
  c4_patch_frame_amended.1 cfgEx (normalizeDeclLoc cfgEx.port_line cfgEx.declaration_location) 3
    (("wire a;\n").toList) (by decide)

/-- C4 counterexample: on the six-line example the patcher inserts two
    blocks, but the output has 13 lines, not 6 + 2 = 8; and line 3 (the
    declaration anchor, matched by the patcher) receives no insertion at all
    because a non-top ANSI module with no sub-instances has nothing to
    declare, so "exactly one insertion per matched anchor" fails too. -/
theorem c4_patch_counterexample :
    linesEx.length = 6
    ∧ markerLineCount (generate_hdl_text cfgEx linesEx) = 4
    ∧ countNL (generate_hdl_text cfgEx linesEx) = 13
    ∧ countNL (generate_hdl_text cfgEx linesEx)
        ≠ linesEx.length + markerLineCount (generate_hdl_text cfgEx linesEx) / 2
    ∧ isAnchorLine cfgEx (normalizeDeclLoc cfgEx.port_line cfgEx.declaration_location) 2 = true
    ∧ process_line cfgEx (normalizeDeclLoc cfgEx.port_line cfgEx.declaration_location) 2
        ((");\n").toList) = (");\n").toList := by
  refine ⟨by decide, by decide, by decide, by decide, by decide, by decide⟩
